import Mathlib

/-!
Shallow embedding of the RealisticShadowGenerator pixel pipeline
(silhouette extraction, light-vector math, contact-line detection,
distance transform, Bresenham shadow projection with occlusion removal,
distance-weighted blur, Porter-Duff compositing, orchestrator validation),
together with theorems settling the specification claims.

JavaScript `number` values that the algorithms manipulate are modelled as
elements of a linear ordered field `K` (instantiated at `ℚ` for executable
runs and at `ℝ` where the source uses trigonometry, `sqrt` or `exp`).
`Uint8Array` masks are modelled as functions `ℕ → ℕ`, `ImageData` pixel
buffers as functions `ℕ → K` in RGBA interleaved order.  Loops that mutate
a freshly created buffer are modelled as folds returning the final buffer.
-/

set_option maxHeartbeats 1000000
set_option maxRecDepth 8000
set_option linter.unusedSectionVars false

attribute [local semireducible] Rat.add Rat.mul Rat.inv Rat.sub

section DataModel

variable (K : Type)

/-- An `ImageData` buffer: `width × height` pixels, RGBA interleaved in `data`
(`data ((y*width+x)*4 + c)` is channel `c` of pixel `(x,y)`). -/
structure Image where
  width : ℕ
  height : ℕ
  data : ℕ → K

/-- The `LightVector` record of `core/types.ts`: 3D directional light vector. -/
structure LightVector where
  dx : K
  dy : K
  dz : K

/-- The `ShadowConfig` record of `core/types.ts`. -/
structure ShadowConfig where
  lightAngle : K
  lightElevation : K
  maxShadowDistance : K
  contactOpacity : K
  falloffRate : K
  minBlurRadius : K
  maxBlurRadius : K

end DataModel

variable {K : Type} [LinearOrderedField K] [FloorRing K]

/-- JavaScript `Math.round`: rounds half-way cases toward positive infinity,
so `Math.round t = ⌊t + 1/2⌋`. -/
def jsRound (q : K) : ℤ := ⌊q + 1/2⌋

/-- Write `1` into cell `idx` of a mask buffer (`buffer[idx] = 1`). -/
def markCell (buf : ℕ → ℕ) (idx : ℕ) : ℕ → ℕ :=
  fun j => if j = idx then 1 else buf j

/-- The list of integers `lo, lo+1, …, hi` (an inclusive `for` loop range). -/
def intList (lo hi : ℤ) : List ℤ :=
  (List.range (hi + 1 - lo).toNat).map (fun k : ℕ => lo + (k : ℤ))

namespace ShadowProjector

/-- The `while (true)` loop body of `ShadowProjector.drawLine`, with an
explicit fuel parameter (the source loop has no bound of its own; `none`
means the fuel ran out before the loop reached its `break`).

Per iteration the source marks the current cell when it is inside the
`width × height` canvas, breaks when `(x, y)` equals the rounded end point,
and otherwise computes `e2 = 2*err` once and steps `x` (when `e2 > -dy`)
and/or `y` (when `e2 < dx`); the four recursive branches below enumerate the
possible combinations of the two independent `if` steps, with the error
updates `err -= dy` and `err += dx` accumulated left to right exactly as the
source applies them. -/
def drawLineGo (width height : ℕ) (dx dy : K) (sx sy endX endY : ℤ) :
    ℕ → ℤ → ℤ → K → (ℕ → ℕ) → Option (ℕ → ℕ)
  | 0, _, _, _, _ => none
  | fuel + 1, x, y, err, buf =>
    let buf' := if 0 ≤ x ∧ x < (width : ℤ) ∧ 0 ≤ y ∧ y < (height : ℤ) then
        markCell buf (y.toNat * width + x.toNat) else buf
    if x = endX ∧ y = endY then some buf'
    else if 2 * err > -dy then
      if 2 * err < dx then
        drawLineGo width height dx dy sx sy endX endY fuel (x + sx) (y + sy) (err - dy + dx) buf'
      else
        drawLineGo width height dx dy sx sy endX endY fuel (x + sx) y (err - dy) buf'
    else if 2 * err < dx then
      drawLineGo width height dx dy sx sy endX endY fuel x (y + sy) (err + dx) buf'
    else
      drawLineGo width height dx dy sx sy endX endY fuel x y err buf'

/-- `ShadowProjector.drawLine`: Bresenham-style trace from `(x0, y0)` to
`(x1, y1)` over the shadow mask `buf`.  `dx`, `dy`, `sx`, `sy` and the
initial error are computed from the unrounded coordinates, while the cursor
and the end point are rounded to integers, exactly as in the source. -/
def drawLine (fuel : ℕ) (buf : ℕ → ℕ) (width height : ℕ) (x0 y0 x1 y1 : K) :
    Option (ℕ → ℕ) :=
  drawLineGo width height |x1 - x0| |y1 - y0|
    (if x0 < x1 then 1 else -1) (if y0 < y1 then 1 else -1)
    (jsRound x1) (jsRound y1)
    fuel (jsRound x0) (jsRound y0) (|x1 - x0| - |y1 - y0|) buf

/-- One iteration of `ShadowProjector.project`'s per-pixel loop at pixel
index `idx` (`x = idx % width`, `y = idx / width`): transparent pixels are
skipped (`continue`); opaque pixels draw the segment from `(x, y)` to the
projected point `(x - dx·maxDistance·warp, y - dy·maxDistance·warp)`, where
`warp = 1 + (depth/255)·0.5` is read from the optional depth map at `idx*4`
and is `1` without a depth map. -/
def projectStep (fuel : ℕ) (mask : ℕ → ℕ) (width height : ℕ)
    (lightVector : LightVector K) (maxDistance : K) (depthMap : Option (ℕ → K)) :
    Option (ℕ → ℕ) → ℕ → Option (ℕ → ℕ) :=
  fun acc idx => acc.bind (fun buf =>
    if mask idx = 0 then some buf
    else
      let x := idx % width
      let y := idx / width
      let warpFactor : K := match depthMap with
        | none => 1
        | some d => 1 + d (idx * 4) / 255 * (1/2)
      drawLine fuel buf width height (x : K) (y : K)
        ((x : K) - lightVector.dx * maxDistance * warpFactor)
        ((y : K) - lightVector.dy * maxDistance * warpFactor))

/-- `ShadowProjector.project`: run the per-pixel loop over all pixel indices
in row-major order, starting from a fresh zero shadow mask. -/
def project (fuel : ℕ) (mask : ℕ → ℕ) (width height : ℕ)
    (lightVector : LightVector K) (maxDistance : K) (depthMap : Option (ℕ → K)) :
    Option (ℕ → ℕ) :=
  (List.range (width * height)).foldl
    (projectStep fuel mask width height lightVector maxDistance depthMap)
    (some (fun _ => 0))

/-- `ShadowProjector.removeOcclusions`: keep exactly the shadow cells
(indices below `width*height`) that are not covered by the silhouette. -/
def removeOcclusions (shadowMask silhouetteMask : ℕ → ℕ) (width height : ℕ) :
    ℕ → ℕ :=
  fun i => if i < width * height ∧ shadowMask i = 1 ∧ silhouetteMask i = 0 then 1 else 0

end ShadowProjector

namespace SpecBresenham

/-- Modelled from the spec: loop of the standard integer Bresenham line
algorithm (§4.5 "integer Bresenham stepping"), all quantities integral.
Same stepping discipline as the implementation's loop, but `dx`, `dy` and
the error term are integers derived from the rounded end points. -/
def go (width height : ℕ) (dx dy sx sy endX endY : ℤ) :
    ℕ → ℤ → ℤ → ℤ → (ℕ → ℕ) → Option (ℕ → ℕ)
  | 0, _, _, _, _ => none
  | fuel + 1, x, y, err, buf =>
    let buf' := if 0 ≤ x ∧ x < (width : ℤ) ∧ 0 ≤ y ∧ y < (height : ℤ) then
        markCell buf (y.toNat * width + x.toNat) else buf
    if x = endX ∧ y = endY then some buf'
    else if 2 * err > -dy then
      if 2 * err < dx then
        go width height dx dy sx sy endX endY fuel (x + sx) (y + sy) (err - dy + dx) buf'
      else
        go width height dx dy sx sy endX endY fuel (x + sx) y (err - dy) buf'
    else if 2 * err < dx then
      go width height dx dy sx sy endX endY fuel x (y + sy) (err + dx) buf'
    else
      go width height dx dy sx sy endX endY fuel x y err buf'

/-- Modelled from the spec: the standard integer Bresenham rasterization
between integer points `(x0, y0)` and `(x1, y1)` (the spec's "integer
Bresenham stepping (round start/end to nearest integer pixel first)"),
marking every traversed in-bounds cell. -/
def run (fuel : ℕ) (buf : ℕ → ℕ) (width height : ℕ) (x0 y0 x1 y1 : ℤ) :
    Option (ℕ → ℕ) :=
  go width height |x1 - x0| |y1 - y0|
    (if x0 < x1 then 1 else -1) (if y0 < y1 then 1 else -1)
    x1 y1 fuel x0 y0 (|x1 - x0| - |y1 - y0|) buf

end SpecBresenham

namespace SilhouetteExtractor

/-- Modelled after `SilhouetteExtractor.extract`: pixel `i` of the binary
mask is `1` iff the alpha channel `data (i*4+3)` strictly exceeds the
threshold (default argument `10` in the source); indices at or beyond
`width*height` are outside the created `Uint8Array`, modelled as `0`. -/
def extract (img : Image K) (alphaThreshold : K) : ℕ → ℕ :=
  fun i => if i < img.width * img.height ∧ alphaThreshold < img.data (i * 4 + 3) then 1 else 0

/-- Modelled after `SilhouetteExtractor.maskToImageData`: white (255) for mask
value 1, black for 0, alpha forced to 255, RGBA interleaved. -/
def maskToImageData (mask : ℕ → ℕ) (width height : ℕ) : ℕ → K :=
  fun j => if j < 4 * (width * height) then
      (if j % 4 = 3 then 255 else ((mask (j / 4) : ℕ) : K) * 255)
    else 0

end SilhouetteExtractor

/-- Modelled from the spec: `degreesToRadians` from the repository's
`utils/math` module (module absent from the sources; §4.2 "angles converted
degrees→radians first"). -/
noncomputable def degreesToRadians (degrees : ℝ) : ℝ := degrees * Real.pi / 180

namespace LightVectorCalculator

/-- Modelled after `LightVectorCalculator.calculate`:
`dx = cos(angle)·cos(elev)`, `dy = sin(angle)·cos(elev)`, `dz = sin(elev)`,
angles in degrees converted to radians first. -/
noncomputable def calculate (angleDegrees elevationDegrees : ℝ) : LightVector ℝ :=
  { dx := Real.cos (degreesToRadians angleDegrees) * Real.cos (degreesToRadians elevationDegrees)
    dy := Real.sin (degreesToRadians angleDegrees) * Real.cos (degreesToRadians elevationDegrees)
    dz := Real.sin (degreesToRadians elevationDegrees) }

/-- Modelled after `LightVectorCalculator.getShadowLengthMultiplier`:
`1 / max(0.1, sin(elevation))`. -/
noncomputable def getShadowLengthMultiplier (elevationDegrees : ℝ) : ℝ :=
  1 / max (1/10) (Real.sin (degreesToRadians elevationDegrees))

/-- Modelled after `LightVectorCalculator.getSuggestedShadowParams`:
contact opacity `0.9 − 0.3·(elev/90)` and falloff rate `3 + 2·(elev/90)`. -/
noncomputable def getSuggestedShadowParams (elevationDegrees : ℝ) : ℝ × ℝ :=
  (9/10 - elevationDegrees / 90 * (3/10), 3 + elevationDegrees / 90 * 2)

end LightVectorCalculator

namespace ContactLineDetector

/-- The inner column scan of `ContactLineDetector.detect`: starting from
`y = bound - 1` and scanning upward, the first `y` with `mask (y*width+x) = 1`
(the source's `break`), or `none` when the column has no opaque pixel
(the source's `lowestY = -1`). -/
def lowestOpaque (mask : ℕ → ℕ) (width x : ℕ) : ℕ → Option ℕ
  | 0 => none
  | y + 1 => if mask (y * width + x) = 1 then some y else lowestOpaque mask width x y

/-- Modelled after `ContactLineDetector.detect`: for each column `x` in order,
the lowest opaque pixel `(x, y)` if the column has one. -/
def detect (mask : ℕ → ℕ) (width height : ℕ) : List (ℕ × ℕ) :=
  (List.range width).filterMap (fun x => (lowestOpaque mask width x height).map (fun y => (x, y)))

end ContactLineDetector

namespace DistanceTransform

/-- Modelled from the spec: the Euclidean `distance` helper from the
repository's `utils/math` module (module absent from the sources; §4.4
"minimum Euclidean distance to any contact-line point"). -/
noncomputable def distance (x1 y1 x2 y2 : ℝ) : ℝ :=
  Real.sqrt ((x1 - x2) ^ 2 + (y1 - y2) ^ 2)

/-- The inner fold of `DistanceTransform.compute` over a nonempty point list:
`minDist` starts at `Infinity` in the source, so after the first point it
equals the distance to that point; the fold below starts there directly.
The `[]` case is unreachable behind `compute`'s emptiness guard. -/
noncomputable def minDistTo (x y : ℕ) : List (ℕ × ℕ) → ℝ
  | [] => 0
  | p :: ps =>
    ps.foldl (fun minDist q => min minDist (distance (x : ℝ) (y : ℝ) (q.1 : ℝ) (q.2 : ℝ)))
      (distance (x : ℝ) (y : ℝ) (p.1 : ℝ) (p.2 : ℝ))

/-- Modelled after `DistanceTransform.compute`: zero map for an empty contact
line; otherwise each in-range pixel gets `0` when transparent and the minimum
Euclidean distance to the contact line when opaque. -/
noncomputable def compute (mask : ℕ → ℕ) (contactLine : List (ℕ × ℕ)) (width height : ℕ) :
    ℕ → ℝ :=
  if contactLine = [] then fun _ => 0
  else fun idx =>
    if idx < width * height then
      if mask idx = 0 then 0 else minDistTo (idx % width) (idx / width) contactLine
    else 0

end DistanceTransform

/-- JavaScript `ToUint8Clamp` (the conversion applied when a number is stored
into a `Uint8ClampedArray`, e.g. `ImageData.data`): clamp to `[0, 255]` and
round half-way cases to the nearest even integer. -/
def toUint8Clamp (v : K) : ℤ :=
  if v ≤ 0 then 0
  else if 255 ≤ v then 255
  else if v - ⌊v⌋ < 1/2 then ⌊v⌋
  else if 1/2 < v - ⌊v⌋ then ⌊v⌋ + 1
  else if 2 ∣ ⌊v⌋ then ⌊v⌋ else ⌊v⌋ + 1

namespace BlurEngine

/-- Modelled from the spec: `clamp` from the repository's `utils/math` module
(module absent from the sources): constrain `v` to `[lo, hi]`. -/
def clamp (v lo hi : K) : K := min (max v lo) hi

/-- Modelled from the spec: `lerp` from the repository's `utils/math` module
(module absent from the sources; §4.6 "radius = lerp(minBlur, maxBlur, t)"). -/
def lerp (a b t : K) : K := a + (b - a) * t

/-- Modelled from the spec: `normalize` from the repository's `utils/math`
module (module absent from the sources; §4.6
"t = clamp(distance/maxDistance, 0, 1)", called `normalize(distance, 0,
maxDistance)` in `BlurEngine`). -/
def normalize (v lo hi : K) : K := clamp ((v - lo) / (hi - lo)) 0 1

/-- The sample-collection loop of `BlurEngine.gaussianBlurAtPixel`: pixel
indices (scaled by 4) of the square neighborhood `dy, dx ∈ [-⌈radius⌉, ⌈radius⌉]`
around `(cx, cy)`, keeping only in-bounds samples with
`dx² + dy² ≤ radius²`, in loop order. -/
def blurSamples (width height cx cy : ℕ) (radius : K) : List ℕ :=
  (intList (-⌈radius⌉) ⌈radius⌉).flatMap (fun dy =>
    (intList (-⌈radius⌉) ⌈radius⌉).filterMap (fun dx =>
      if 0 ≤ (cx : ℤ) + dx ∧ (cx : ℤ) + dx < (width : ℤ) ∧
          0 ≤ (cy : ℤ) + dy ∧ (cy : ℤ) + dy < (height : ℤ) then
        if (((dx * dx + dy * dy : ℤ)) : K) > radius * radius then none
        else some ((((cy : ℤ) + dy).toNat * width + ((cx : ℤ) + dx).toNat) * 4)
      else none))

/-- Modelled after `BlurEngine.gaussianBlurAtPixel`: radii below `0.5` return
the center pixel unchanged; otherwise the four channels are summed over the
circular in-bounds neighborhood, averaged when at least one sample exists,
and each channel is returned as `clamp(Math.round(channel), 0, 255)`. -/
def gaussianBlurAtPixel (img : Image K) (cx cy : ℕ) (radius : K) : K × K × K × K :=
  if radius < 1/2 then
    (img.data ((cy * img.width + cx) * 4), img.data ((cy * img.width + cx) * 4 + 1),
     img.data ((cy * img.width + cx) * 4 + 2), img.data ((cy * img.width + cx) * 4 + 3))
  else
    let samples := blurSamples img.width img.height cx cy radius
    let count := samples.length
    let avg : ℕ → K := fun c =>
      let s := (samples.map (fun p => img.data (p + c))).sum
      if 0 < count then s / (count : K) else s
    (clamp ((jsRound (avg 0) : ℤ) : K) 0 255, clamp ((jsRound (avg 1) : ℤ) : K) 0 255,
     clamp ((jsRound (avg 2) : ℤ) : K) 0 255, clamp ((jsRound (avg 3) : ℤ) : K) 0 255)

/-- Modelled after `BlurEngine.applyDistanceWeightedBlur`: per pixel the blur
radius is `lerp(minBlur, maxBlur, normalize(distance, 0, maxDistance))` and the
output channel is the corresponding channel of `gaussianBlurAtPixel`. -/
def applyDistanceWeightedBlur (shadowData : Image K) (distanceMap : ℕ → K)
    (minBlur maxBlur maxDistance : K) : ℕ → K :=
  fun j => if j < 4 * (shadowData.width * shadowData.height) then
      let i := j / 4
      let radius := lerp minBlur maxBlur (normalize (distanceMap i) 0 maxDistance)
      let blurred := gaussianBlurAtPixel shadowData (i % shadowData.width)
        (i / shadowData.width) radius
      match j % 4 with
      | 0 => blurred.1
      | 1 => blurred.2.1
      | 2 => blurred.2.2.1
      | _ => blurred.2.2.2
    else 0

end BlurEngine

/-- Modelled after `alphaBlend` of `utils/imageData.ts`: Porter-Duff "over"
with straight 0-255 alpha; a fully transparent source returns the backdrop
unchanged, otherwise the blended channels are rounded with `Math.round`
(`outA > 0` guards the division, else the backdrop color passes through). -/
def alphaBlend (backdropR backdropG backdropB backdropA sourceR sourceG sourceB sourceA : K) :
    K × K × K × K :=
  let srcA := sourceA / 255
  let dstA := backdropA / 255
  if srcA = 0 then (backdropR, backdropG, backdropB, backdropA)
  else
    let outA := srcA + dstA * (1 - srcA)
    let outR := if outA > 0 then (sourceR * srcA + backdropR * dstA * (1 - srcA)) / outA
      else backdropR
    let outG := if outA > 0 then (sourceG * srcA + backdropG * dstA * (1 - srcA)) / outA
      else backdropG
    let outB := if outA > 0 then (sourceB * srcA + backdropB * dstA * (1 - srcA)) / outA
      else backdropB
    (((jsRound outR : ℤ) : K), ((jsRound outG : ℤ) : K), ((jsRound outB : ℤ) : K),
     ((jsRound (outA * 255) : ℤ) : K))

/-- Channel selector for the RGBA quadruples returned by `alphaBlend`. -/
def channelOf (t : K × K × K × K) : ℕ → K
  | 0 => t.1
  | 1 => t.2.1
  | 2 => t.2.2.1
  | _ => t.2.2.2

namespace ShadowCompositor

/-- Modelled from the spec: `exponentialFalloff` from the repository's
`utils/math` module (module absent from the sources; §4.7 "alpha =
contactOpacity · exp(−falloffRate · distance/maxShadowDistance) · 255",
where the `·255` scaling is applied by the caller). -/
noncomputable def exponentialFalloff (dist contactOpacity falloffRate maxDistance : ℝ) : ℝ :=
  contactOpacity * Real.exp (-(falloffRate * (dist / maxDistance)))

/-- Modelled after `ShadowCompositor.createShadowLayer`: shadow pixels are
black with alpha `opacity·255` (stored through `Uint8ClampedArray`), all
other channels and non-shadow pixels are `0`. -/
noncomputable def createShadowLayer (shadowMask : ℕ → ℕ) (distanceMap : ℕ → ℝ)
    (config : ShadowConfig ℝ) (width height : ℕ) : ℕ → ℝ :=
  fun j => if j < 4 * (width * height) then
      if shadowMask (j / 4) = 0 then 0
      else if j % 4 = 3 then
        ((toUint8Clamp (exponentialFalloff (distanceMap (j / 4)) config.contactOpacity
          config.falloffRate config.maxShadowDistance * 255) : ℤ) : ℝ)
      else 0
    else 0

/-- Modelled after `ShadowCompositor.composite`: per pixel, blend the shadow
over the background, then the foreground over that, and store the rounded
channels into the result `ImageData` (a `Uint8ClampedArray` store). -/
def composite (background shadow foreground : Image K) : Image K :=
  { width := background.width
    height := background.height
    data := fun j =>
      if j < 4 * (background.width * background.height) then
        let p := j / 4 * 4
        let shadowBlend := alphaBlend (background.data p) (background.data (p + 1))
          (background.data (p + 2)) (background.data (p + 3))
          (shadow.data p) (shadow.data (p + 1)) (shadow.data (p + 2)) (shadow.data (p + 3))
        let foregroundBlend := alphaBlend shadowBlend.1 shadowBlend.2.1
          shadowBlend.2.2.1 shadowBlend.2.2.2
          (foreground.data p) (foreground.data (p + 1)) (foreground.data (p + 2))
          (foreground.data (p + 3))
        ((toUint8Clamp (channelOf foregroundBlend (j % 4)) : ℤ) : K)
      else 0 }

/-- Modelled from the spec: the plain two-layer Porter-Duff composite of §8's
compositing-identity property — the foreground blended directly over the
background with the same straight-alpha "over" operator and per-channel
rounding, with no shadow stage in between. -/
def blendTwoLayers (background foreground : Image K) : Image K :=
  { width := background.width
    height := background.height
    data := fun j =>
      if j < 4 * (background.width * background.height) then
        let p := j / 4 * 4
        let b := alphaBlend (background.data p) (background.data (p + 1))
          (background.data (p + 2)) (background.data (p + 3))
          (foreground.data p) (foreground.data (p + 1)) (foreground.data (p + 2))
          (foreground.data (p + 3))
        ((toUint8Clamp (channelOf b (j % 4)) : ℤ) : K)
      else 0 }

end ShadowCompositor

namespace ShadowGenerator

/-- The two fatal validation failures thrown by
`ShadowGenerator.validateImages` ("Foreground image is required" /
"Background image is required"). -/
inductive ValidationError
  | missingForeground
  | missingBackground
deriving DecidableEq

/-- The two non-fatal `console.warn` messages of
`ShadowGenerator.validateImages` (foreground/background dimension mismatch,
depth-map dimension mismatch). -/
inductive ValidationWarning
  | imageDimensionMismatch
  | depthMapDimensionMismatch
deriving DecidableEq

/-- Input images of one generation run; `validateImages` checks the
foreground and background for presence at run time, so both are modelled as
optional here. -/
structure ImageSet (K : Type) where
  foreground : Option (Image K)
  background : Option (Image K)
  depthMap : Option (Image K)

/-- Modelled after `ShadowGenerator.validateImages`: throw when the
foreground or the background is absent; otherwise only collect dimension
mismatch warnings and succeed. -/
def validateImages (images : ImageSet K) : Except ValidationError (List ValidationWarning) :=
  match images.foreground with
  | none => .error .missingForeground
  | some fg =>
    match images.background with
    | none => .error .missingBackground
    | some bg =>
      .ok ((if fg.width ≠ bg.width ∨ fg.height ≠ bg.height then
              [ValidationWarning.imageDimensionMismatch] else []) ++
           (match images.depthMap with
            | none => []
            | some dm =>
              if dm.width ≠ fg.width ∨ dm.height ≠ fg.height then
                [ValidationWarning.depthMapDimensionMismatch] else []))

/-- A pixel buffer living in the modelled JavaScript heap: either a
`Uint8Array` mask or a float-valued buffer (`ImageData.data` /
`Float32Array`). -/
inductive Buf
  | bytes (f : ℕ → ℕ)
  | reals (f : ℕ → ℝ)

/-- The heap of pixel buffers: an allocation counter and the contents of
every allocated buffer id.  Input buffers live at ids below `next`. -/
structure Store where
  next : ℕ
  mem : ℕ → Buf

/-- Allocate a fresh buffer (a `new Uint8Array(...)` / `new ImageData(...)`)
and fill it: returns the fresh id and the updated heap.  Only the fresh id's
contents change. -/
def allocSet (s : Store) (v : Buf) : ℕ × Store :=
  (s.next, ⟨s.next + 1, fun b => if b = s.next then v else s.mem b⟩)

/-- Read a byte (mask) buffer from the heap. -/
def getBytes (s : Store) (b : ℕ) : ℕ → ℕ :=
  match s.mem b with
  | .bytes f => f
  | .reals _ => fun _ => 0

/-- Read a float (image/distance) buffer from the heap. -/
def getReals (s : Store) (b : ℕ) : ℕ → ℝ :=
  match s.mem b with
  | .bytes _ => fun _ => 0
  | .reals f => f

/-- Modelled after `ShadowGenerator.generate`, with buffer allocation made
explicit: every pipeline stage allocates a fresh heap buffer and fills it
with that stage's output (computed by the per-stage functions above), the
input buffers are only read.  Returns the updated heap together with the
ids of `shadowOnly` (the blurred shadow layer), `maskDebug` and `composite`;
`none` when the projector's `drawLine` fuel runs out (the source would not
return at all in that case). -/
noncomputable def generate (fuel : ℕ) (s : Store) (fgId bgId : ℕ) (depthId : Option ℕ)
    (config : ShadowConfig ℝ) (width height : ℕ) : Option (Store × ℕ × ℕ × ℕ) :=
  let silhouetteAlloc := allocSet s
    (.bytes (SilhouetteExtractor.extract ⟨width, height, getReals s fgId⟩ 10))
  let maskId := silhouetteAlloc.1
  let s1 := silhouetteAlloc.2
  let mask := getBytes s1 maskId
  let lightVector := LightVectorCalculator.calculate config.lightAngle config.lightElevation
  let shadowLength :=
    LightVectorCalculator.getShadowLengthMultiplier config.lightElevation * config.maxShadowDistance
  let contactLine := ContactLineDetector.detect mask width height
  let distAlloc := allocSet s1 (.reals (DistanceTransform.compute mask contactLine width height))
  let distId := distAlloc.1
  let s2 := distAlloc.2
  match ShadowProjector.project fuel mask width height lightVector shadowLength
      (depthId.map (getReals s)) with
  | none => none
  | some projected =>
    let projAlloc := allocSet s2 (.bytes projected)
    let s3 := projAlloc.2
    let occAlloc := allocSet s3
      (.bytes (ShadowProjector.removeOcclusions (getBytes s3 projAlloc.1) mask width height))
    let s4 := occAlloc.2
    let layerAlloc := allocSet s4
      (.reals (ShadowCompositor.createShadowLayer (getBytes s4 occAlloc.1)
        (getReals s4 distId) config width height))
    let s5 := layerAlloc.2
    let blurAlloc := allocSet s5
      (.reals (BlurEngine.applyDistanceWeightedBlur ⟨width, height, getReals s5 layerAlloc.1⟩
        (getReals s5 distId) config.minBlurRadius config.maxBlurRadius config.maxShadowDistance))
    let s6 := blurAlloc.2
    let debugAlloc := allocSet s6 (.reals (SilhouetteExtractor.maskToImageData mask width height))
    let s7 := debugAlloc.2
    let compositeAlloc := allocSet s7
      (.reals ((ShadowCompositor.composite ⟨width, height, getReals s7 bgId⟩
        ⟨width, height, getReals s7 blurAlloc.1⟩ ⟨width, height, getReals s7 fgId⟩).data))
    some (compositeAlloc.2, blurAlloc.1, debugAlloc.1, compositeAlloc.1)

end ShadowGenerator

/-- C5: for every shadow mask and silhouette mask (of the common
`width × height` size), `removeOcclusions` is idempotent — applying it a
second time with the same silhouette changes nothing — and its result never
overlaps the silhouette (the product of the result and the silhouette mask
vanishes at every cell). -/
theorem C5_removeOcclusions_idempotent_and_disjoint :
    ∀ (shadowMask silhouetteMask : ℕ → ℕ) (width height : ℕ) (i : ℕ),
      ShadowProjector.removeOcclusions
          (ShadowProjector.removeOcclusions shadowMask silhouetteMask width height)
          silhouetteMask width height i
        = ShadowProjector.removeOcclusions shadowMask silhouetteMask width height i
      ∧ ShadowProjector.removeOcclusions shadowMask silhouetteMask width height i
          * silhouetteMask i = 0 := by
  intro shadowMask silhouetteMask width height i
  constructor
  · simp only [ShadowProjector.removeOcclusions]
    split_ifs with h1 h2 h3 <;> simp_all
  · simp only [ShadowProjector.removeOcclusions]
    split_ifs with h1 <;> simp_all

/-- C9: `validateImages` fails exactly when the foreground or the background
image is absent; with both present it always succeeds (returning only
warnings), regardless of any dimension disagreement between foreground,
background and depth map. -/
theorem C9_validateImages_error_iff_missing_input (K : Type) :
    ∀ images : ShadowGenerator.ImageSet K,
      (∃ e, ShadowGenerator.validateImages images = .error e) ↔
        (images.foreground = none ∨ images.background = none) := by
  intro images
  obtain ⟨fg, bg, dm⟩ := images
  cases fg <;> cases bg <;>
    simp [ShadowGenerator.validateImages]

namespace ContactLineDetector

theorem lowestOpaque_eq_some {mask : ℕ → ℕ} {width x : ℕ} :
    ∀ {bound y : ℕ}, lowestOpaque mask width x bound = some y →
      mask (y * width + x) = 1 ∧ y < bound ∧
        ∀ y', y < y' → y' < bound → mask (y' * width + x) ≠ 1 := by
  intro bound
  induction bound with
  | zero => intro y h; simp [lowestOpaque] at h
  | succ b ih =>
    intro y h
    by_cases hb : mask (b * width + x) = 1
    · simp [lowestOpaque, hb] at h
      subst h
      exact ⟨hb, Nat.lt_succ_self b, fun y' h1 h2 => absurd h1 (by omega)⟩
    · simp [lowestOpaque, hb] at h
      obtain ⟨h1, h2, h3⟩ := ih h
      refine ⟨h1, Nat.lt_succ_of_lt h2, fun y' hy1 hy2 => ?_⟩
      rcases Nat.lt_succ_iff_lt_or_eq.mp hy2 with hy2' | rfl
      · exact h3 y' hy1 hy2'
      · exact hb

theorem mem_detect {mask : ℕ → ℕ} {width height : ℕ} {p : ℕ × ℕ} :
    p ∈ detect mask width height ↔
      p.1 < width ∧ lowestOpaque mask width p.1 height = some p.2 := by
  obtain ⟨x, y⟩ := p
  simp only [detect, List.mem_filterMap, List.mem_range, Option.map_eq_some']
  constructor
  · rintro ⟨x', hx', y', hy', heq⟩
    obtain ⟨rfl, rfl⟩ := Prod.mk.injEq .. ▸ heq
    exact ⟨hx', hy'⟩
  · rintro ⟨hx, hy⟩
    exact ⟨x, hx, y, hy, rfl⟩

end ContactLineDetector

/-- C3: every point `(x, y)` that `detect` returns is an opaque pixel, is the
lowest opaque pixel of its column (no opaque pixel of column `x` lies strictly
below it), lies within the `width × height` bounds, and each column
contributes at most one point. -/
theorem C3_detect_contact_points (mask : ℕ → ℕ) (width height : ℕ) (p : ℕ × ℕ)
    (hp : p ∈ ContactLineDetector.detect mask width height) :
    (mask (p.2 * width + p.1) = 1 ∧ p.1 < width ∧ p.2 < height ∧
      ∀ y', p.2 < y' → y' < height → mask (y' * width + p.1) ≠ 1) ∧
    (∀ q ∈ ContactLineDetector.detect mask width height, q.1 = p.1 → q.2 = p.2) := by
  obtain ⟨hx, hy⟩ := ContactLineDetector.mem_detect.mp hp
  obtain ⟨h1, h2, h3⟩ := ContactLineDetector.lowestOpaque_eq_some hy
  refine ⟨⟨h1, hx, h2, h3⟩, fun q hq hqx => ?_⟩
  obtain ⟨hqx', hqy⟩ := ContactLineDetector.mem_detect.mp hq
  rw [hqx] at hqy
  rw [hy] at hqy
  exact (Option.some_injective _ hqy).symm

/-- Witness for C3 at a concrete mask: the single opaque pixel at `(0, 1)` of
a 2×2 canvas is detected and satisfies the guarantees. -/
theorem C3_detect_contact_points_witness :
    (fun i => if i = 2 then 1 else 0 : ℕ → ℕ) ((0, 1).2 * 2 + (0, 1).1) = 1 ∧
      (0, 1).1 < 2 ∧ (0, 1).2 < 2 ∧
      ∀ y', (0, 1).2 < y' → y' < 2 →
        (fun i => if i = 2 then 1 else 0 : ℕ → ℕ) (y' * 2 + (0, 1).1) ≠ 1 :=
  (C3_detect_contact_points (fun i => if i = 2 then 1 else 0) 2 2 (0, 1) (by decide)).1

theorem mem_intList {lo hi a : ℤ} : a ∈ intList lo hi ↔ lo ≤ a ∧ a ≤ hi := by
  simp only [intList, List.mem_map, List.mem_range]
  constructor
  · rintro ⟨k, hk, rfl⟩
    omega
  · rintro ⟨h1, h2⟩
    exact ⟨(a - lo).toNat, by omega, by omega⟩

/-- C10: whenever the center pixel is in bounds and the radius is at least
`0.5` (so that `gaussianBlurAtPixel` does not take its small-radius early
return), the circular neighborhood contains at least the center sample, so
the `count == 0` fallback of `gaussianBlurAtPixel` is unreachable and the
averaging division is over a positive count. -/
theorem C10_gaussianBlur_center_sample (width height cx cy : ℕ) (radius : K)
    (hx : cx < width) (hy : cy < height) (hr : 1/2 ≤ radius) :
    0 < (BlurEngine.blurSamples width height cx cy radius).length := by
  have hrpos : (0 : K) < radius := lt_of_lt_of_le (by norm_num) hr
  have hceil : (1 : ℤ) ≤ ⌈radius⌉ := Int.ceil_pos.mpr hrpos
  have h0 : (0 : ℤ) ∈ intList (-⌈radius⌉) ⌈radius⌉ := mem_intList.mpr ⟨by omega, by omega⟩
  have hidx : ((cy * width + cx) * 4) ∈ BlurEngine.blurSamples width height cx cy radius := by
    simp only [BlurEngine.blurSamples, List.mem_flatMap, List.mem_filterMap]
    refine ⟨0, h0, 0, h0, ?_⟩
    rw [if_pos (by constructor <;> [omega; constructor <;> [omega; constructor <;> omega]])]
    rw [if_neg (by push_cast; simpa using mul_self_nonneg radius)]
    simp
  exact List.length_pos.mpr (List.ne_nil_of_mem hidx)

/-- Witness for C10 at a concrete configuration: a 1×1 image, center `(0,0)`,
radius `1`. -/
theorem C10_gaussianBlur_center_sample_witness :
    0 < (BlurEngine.blurSamples 1 1 0 0 (1 : ℚ)).length :=
  C10_gaussianBlur_center_sample 1 1 0 0 1 (by decide) (by decide) (by norm_num)

section FoldMin

variable {A B : Type} [LinearOrder A] (f : B → A)

theorem foldlMin_le_init : ∀ (l : List B) (m : A),
    l.foldl (fun acc q => min acc (f q)) m ≤ m := by
  intro l
  induction l with
  | nil => simp
  | cons p t ih => intro m; exact le_trans (ih _) (min_le_left _ _)

theorem foldlMin_le_mem : ∀ (l : List B) (m : A) (q : B), q ∈ l →
    l.foldl (fun acc q => min acc (f q)) m ≤ f q := by
  intro l
  induction l with
  | nil => simp
  | cons p t ih =>
    intro m q hq
    rcases List.mem_cons.mp hq with rfl | hq'
    · exact le_trans (foldlMin_le_init f t _) (min_le_right _ _)
    · exact ih _ q hq'

theorem le_foldlMin : ∀ (l : List B) (m c : A), c ≤ m → (∀ q ∈ l, c ≤ f q) →
    c ≤ l.foldl (fun acc q => min acc (f q)) m := by
  intro l
  induction l with
  | nil => intro m c h _; exact h
  | cons p t ih =>
    intro m c h hall
    exact ih _ _ (le_min h (hall p (List.mem_cons_self p t)))
      (fun q hq => hall q (List.mem_cons_of_mem p hq))

end FoldMin

namespace DistanceTransform

theorem distance_nonneg (x1 y1 x2 y2 : ℝ) : 0 ≤ distance x1 y1 x2 y2 :=
  Real.sqrt_nonneg _

theorem distance_self (x y : ℝ) : distance x y x y = 0 := by
  simp [distance]

theorem minDistTo_nonneg (x y : ℕ) : ∀ l : List (ℕ × ℕ), 0 ≤ minDistTo x y l := by
  intro l
  cases l with
  | nil => exact le_refl 0
  | cons p t =>
    exact le_foldlMin _ t _ 0 (distance_nonneg _ _ _ _)
      (fun q _ => distance_nonneg _ _ _ _)

theorem minDistTo_le (x y : ℕ) (l : List (ℕ × ℕ)) (q : ℕ × ℕ) (hq : q ∈ l) :
    minDistTo x y l ≤ distance (x : ℝ) (y : ℝ) (q.1 : ℝ) (q.2 : ℝ) := by
  cases l with
  | nil => cases hq
  | cons p t =>
    rcases List.mem_cons.mp hq with rfl | hq'
    · exact foldlMin_le_init _ t _
    · exact foldlMin_le_mem _ t _ q hq'

end DistanceTransform

/-- C4: every entry of the distance transform is nonnegative, the pixel at
any in-bounds contact-line point has distance exactly `0`, every non-opaque
pixel has distance `0`, and an empty contact line yields the all-zero map. -/
theorem C4_distance_transform_properties (mask : ℕ → ℕ) (contactLine : List (ℕ × ℕ))
    (width height : ℕ) :
    (∀ idx, 0 ≤ DistanceTransform.compute mask contactLine width height idx) ∧
    (∀ p ∈ contactLine, p.1 < width → p.2 < height →
      DistanceTransform.compute mask contactLine width height (p.2 * width + p.1) = 0) ∧
    (∀ idx, mask idx = 0 → DistanceTransform.compute mask contactLine width height idx = 0) ∧
    (contactLine = [] →
      ∀ idx, DistanceTransform.compute mask contactLine width height idx = 0) := by
  refine ⟨fun idx => ?_, fun p hp hpx hpy => ?_, fun idx hm => ?_, fun he idx => ?_⟩
  · by_cases he : contactLine = []
    · simp [DistanceTransform.compute, he]
    · simp only [DistanceTransform.compute, if_neg he]
      split_ifs with h1 h2
      · exact le_refl 0
      · exact DistanceTransform.minDistTo_nonneg _ _ _
      · exact le_refl 0
  · have he : contactLine ≠ [] := List.ne_nil_of_mem hp
    have hidx : p.2 * width + p.1 < width * height := by
      calc p.2 * width + p.1 < (p.2 + 1) * width := by rw [Nat.succ_mul]; omega
        _ ≤ height * width := Nat.mul_le_mul_right _ (by omega)
        _ = width * height := Nat.mul_comm _ _
    simp only [DistanceTransform.compute, if_neg he, if_pos hidx]
    by_cases hm : mask (p.2 * width + p.1) = 0
    · simp [hm]
    · rw [if_neg hm]
      have hmod : (p.2 * width + p.1) % width = p.1 := by
        rw [Nat.add_comm, Nat.mul_comm, Nat.add_mul_mod_self_left, Nat.mod_eq_of_lt hpx]
      have hdiv : (p.2 * width + p.1) / width = p.2 := by
        rw [Nat.add_comm, Nat.mul_comm, Nat.add_mul_div_left _ _ (by omega : 0 < width),
          Nat.div_eq_of_lt hpx, Nat.zero_add]
      rw [hmod, hdiv]
      refine le_antisymm ?_ (DistanceTransform.minDistTo_nonneg _ _ _)
      have := DistanceTransform.minDistTo_le p.1 p.2 contactLine p hp
      rwa [DistanceTransform.distance_self] at this
  · by_cases he : contactLine = []
    · simp [DistanceTransform.compute, he]
    · simp only [DistanceTransform.compute, if_neg he]
      split_ifs <;> simp_all
  · simp [DistanceTransform.compute, he]

/-- Witness for C4 at a concrete configuration: a fully opaque 1×1 mask with
the single contact point `(0, 0)` has distance `0` there. -/
theorem C4_distance_transform_properties_witness :
    DistanceTransform.compute (fun _ => 1) [(0, 0)] 1 1 (0 * 1 + 0) = 0 :=
  (C4_distance_transform_properties (fun _ => 1) [(0, 0)] 1 1).2.1 (0, 0)
    (by simp) (by decide) (by decide)

theorem alphaBlend_transparent_source (b1 b2 b3 b4 s1 s2 s3 : K) :
    alphaBlend b1 b2 b3 b4 s1 s2 s3 0 = (b1, b2, b3, b4) := by
  simp [alphaBlend]

/-- C6: compositing with a shadow layer whose alpha channel vanishes at every
pixel returns, at every buffer position, exactly the plain two-layer
Porter-Duff "over" blend of the foreground over the background — the
all-transparent shadow stage is an identity for the composition. -/
theorem C6_transparent_shadow_composite_identity (background shadow foreground : Image K)
    (halpha : ∀ i, shadow.data (4 * i + 3) = 0) :
    ∀ j, (ShadowCompositor.composite background shadow foreground).data j
      = (ShadowCompositor.blendTwoLayers background foreground).data j := by
  intro j
  simp only [ShadowCompositor.composite, ShadowCompositor.blendTwoLayers]
  by_cases hj : j < 4 * (background.width * background.height)
  · have hp : shadow.data (j / 4 * 4 + 3) = 0 := by
      have h := halpha (j / 4)
      rwa [Nat.mul_comm] at h
    simp only [if_pos hj, hp, alphaBlend_transparent_source]
  · simp only [if_neg hj]

/-- Witness for C6 at a concrete configuration: 1×1 buffers, shadow layer
identically zero. -/
theorem C6_transparent_shadow_composite_identity_witness :
    (ShadowCompositor.composite (⟨1, 1, fun _ => 100⟩ : Image ℚ) ⟨1, 1, fun _ => 0⟩
        ⟨1, 1, fun _ => 50⟩).data 0
      = (ShadowCompositor.blendTwoLayers (⟨1, 1, fun _ => 100⟩ : Image ℚ)
          ⟨1, 1, fun _ => 50⟩).data 0 :=
  C6_transparent_shadow_composite_identity ⟨1, 1, fun _ => 100⟩ ⟨1, 1, fun _ => 0⟩
    ⟨1, 1, fun _ => 50⟩ (fun _ => rfl) 0

section FoldSingle

variable {B : Type}

theorem foldl_id_of_forall (F : B → ℕ → B) :
    ∀ (l : List ℕ) (b : B), (∀ b' i, i ∈ l → F b' i = b') → l.foldl F b = b := by
  intro l
  induction l with
  | nil => intro b _; rfl
  | cons hd t ih =>
    intro b hforall
    rw [List.foldl_cons, hforall b hd (List.mem_cons_self hd t)]
    exact ih b (fun b' i hi => hforall b' i (List.mem_cons_of_mem hd hi))

theorem foldl_eq_of_single_active (F : B → ℕ → B) :
    ∀ (l : List ℕ) (k : ℕ) (b : B), k ∈ l → l.Nodup →
      (∀ b' i, i ∈ l → i ≠ k → F b' i = b') → l.foldl F b = F b k := by
  intro l
  induction l with
  | nil => intro k b hk; cases hk
  | cons hd t ih =>
    intro k b hk hnd hid
    rcases List.mem_cons.mp hk with rfl | hk'
    · rw [List.foldl_cons]
      exact foldl_id_of_forall F t (F b k)
        (fun b' i hi => hid b' i (List.mem_cons_of_mem k hi)
          (fun he => ((List.nodup_cons.mp hnd).1 (he ▸ hi)).elim))
    · rw [List.foldl_cons,
        hid b hd (List.mem_cons_self hd t) (fun he => ((List.nodup_cons.mp hnd).1 (he ▸ hk')).elim)]
      exact ih k b hk' (List.nodup_cons.mp hnd).2
        (fun b' i hi hne => hid b' i (List.mem_cons_of_mem hd hi) hne)

end FoldSingle

namespace ShadowProjector

theorem markCell_keeps {buf : ℕ → ℕ} {j : ℕ} (idx : ℕ) (h : buf j = 1) :
    markCell buf idx j = 1 := by
  unfold markCell
  split_ifs <;> simp_all

/-- Cells already marked in the buffer stay marked through the drawing loop. -/
theorem drawLineGo_marks_mono {width height : ℕ} {dx dy : K} {sx sy endX endY : ℤ} :
    ∀ {fuel : ℕ} {x y : ℤ} {err : K} {buf out : ℕ → ℕ},
      drawLineGo width height dx dy sx sy endX endY fuel x y err buf = some out →
      ∀ j, buf j = 1 → out j = 1 := by
  intro fuel
  induction fuel with
  | zero => intro x y err buf out h; cases h
  | succ n ih =>
    intro x y err buf out h j hj
    rw [drawLineGo] at h
    split_ifs at h <;>
      first
        | exact (Option.some_injective _ h) ▸ markCell_keeps _ hj
        | exact (Option.some_injective _ h) ▸ hj
        | exact ih h j (markCell_keeps _ hj)
        | exact ih h j hj

/-- With `sx = 1` the cursor's x-coordinate never decreases, so once it has
passed `endX` the loop's `break` can never fire and any amount of fuel is
exhausted. -/
theorem drawLineGo_none_of_endX_lt {width height : ℕ} {dx dy : K} {sy endX endY : ℤ} :
    ∀ (fuel : ℕ) (x y : ℤ) (err : K) (buf : ℕ → ℕ), endX < x →
      drawLineGo width height dx dy 1 sy endX endY fuel x y err buf = none := by
  intro fuel
  induction fuel with
  | zero => intro x y err buf _; rfl
  | succ n ih =>
    intro x y err buf hx
    rw [drawLineGo]
    split_ifs <;>
      first
        | exact absurd (‹x = endX ∧ y = endY›).1 (by omega)
        | exact ih _ _ _ _ (by omega)

/-- When all pixels but `k` are transparent, `project` reduces to the single
loop iteration at `k`. -/
theorem project_eq_single_step (fuel : ℕ) (mask : ℕ → ℕ) (width height : ℕ)
    (lightVector : LightVector K) (maxDistance : K) (depthMap : Option (ℕ → K)) (k : ℕ)
    (hk : k < width * height) (hmask : ∀ i, i ≠ k → mask i = 0) :
    project fuel mask width height lightVector maxDistance depthMap
      = projectStep fuel mask width height lightVector maxDistance depthMap
          (some (fun _ => 0)) k := by
  unfold project
  refine foldl_eq_of_single_active _ _ k _ (List.mem_range.mpr hk) (List.nodup_range _) ?_
  intro b i _ hne
  cases b <;> simp [projectStep, hmask i hne]

end ShadowProjector

/-- C1: the claim that `project` always terminates is false on the code.  At
the concrete input below — a 1×1 canvas whose single pixel `(0, 0)` is
opaque, light vector `(-0.35, -0.15, 0)`, `maxDistance = 4`, no depth map —
the projected end point is `(1.4, 0.6)`; `drawLine`'s cursor visits
`(0,0), (1,0), (2,1), …`, stepping diagonally past the rounded end point
`(1, 1)`, and since the x-cursor never decreases the `break` can never fire:
the loop exhausts every amount of fuel, i.e. the source loops forever and
`generate` never returns. -/
theorem C1_project_diverges_on_fractional_endpoint :
    ∀ fuel : ℕ,
      (ShadowProjector.project fuel (fun i => if i = 0 then 1 else 0) 1 1
        (⟨-(7/20), -(3/20), 0⟩ : LightVector ℚ) 4 none).isNone = true := by
  have hstep : ∀ (n : ℕ) (buf : ℕ → ℕ),
      ShadowProjector.drawLineGo 1 1 (7/5 : ℚ) (3/5) 1 1 1 1 (n + 2) 0 0 (4/5) buf
        = ShadowProjector.drawLineGo 1 1 (7/5 : ℚ) (3/5) 1 1 1 1 n 2 1 1 (markCell buf 0) := by
    intro n buf
    simp only [ShadowProjector.drawLineGo]
    norm_num
  intro fuel
  rw [ShadowProjector.project_eq_single_step fuel _ 1 1 _ 4 none 0 (by norm_num)
    (fun i hi => by simp [hi])]
  rw [show ShadowProjector.projectStep fuel (fun i => if i = 0 then 1 else 0) 1 1
      (⟨-(7/20), -(3/20), 0⟩ : LightVector ℚ) 4 none (some (fun _ => 0)) 0
      = ShadowProjector.drawLine fuel (fun _ => 0) 1 1 ((0 : ℚ)) 0 (7/5) (3/5) from by
    simp only [ShadowProjector.projectStep, Option.some_bind]
    norm_num]
  rw [show ShadowProjector.drawLine fuel (fun _ => 0) 1 1 ((0 : ℚ)) 0 (7/5) (3/5)
      = ShadowProjector.drawLineGo 1 1 (7/5 : ℚ) (3/5) 1 1 1 1 fuel 0 0 (4/5) (fun _ => 0) from by
    simp only [ShadowProjector.drawLine, jsRound]
    norm_num
    rw [show |(7/5 : ℚ)| = 7/5 from abs_of_nonneg (by norm_num),
      show |(3/5 : ℚ)| = 3/5 from abs_of_nonneg (by norm_num)]
    norm_num]
  rcases fuel with _ | _ | n
  · rfl
  · decide
  · rw [hstep n (fun _ => 0),
      ShadowProjector.drawLineGo_none_of_endX_lt n 2 1 1 (markCell (fun _ => 0) 0) (by norm_num)]
    rfl

theorem jsRound_intCast (n : ℤ) : jsRound ((n : ℤ) : K) = n := by
  unfold jsRound
  rw [add_comm, Int.floor_add_int, Int.floor_eq_zero_iff.mpr (by constructor <;> norm_num)]
  omega

theorem drawLineGo_intCast_eq (width height : ℕ) (dx dy sx sy endX endY : ℤ) :
    ∀ (fuel : ℕ) (x y err : ℤ) (buf : ℕ → ℕ),
      ShadowProjector.drawLineGo width height ((dx : ℤ) : K) ((dy : ℤ) : K) sx sy endX endY
          fuel x y ((err : ℤ) : K) buf
        = SpecBresenham.go width height dx dy sx sy endX endY fuel x y err buf := by
  intro fuel
  induction fuel with
  | zero => intro x y err buf; rfl
  | succ n ih =>
    intro x y err buf
    simp only [ShadowProjector.drawLineGo, SpecBresenham.go]
    by_cases hbr : x = endX ∧ y = endY
    · rw [if_pos hbr, if_pos hbr]
    · rw [if_neg hbr, if_neg hbr]
      by_cases h1 : 2 * err > -dy
      · have h1' : 2 * ((err : ℤ) : K) > -((dy : ℤ) : K) := by exact_mod_cast h1
        rw [if_pos h1', if_pos h1]
        by_cases h2 : 2 * err < dx
        · have h2' : 2 * ((err : ℤ) : K) < ((dx : ℤ) : K) := by exact_mod_cast h2
          rw [if_pos h2', if_pos h2,
            show ((err : ℤ) : K) - ((dy : ℤ) : K) + ((dx : ℤ) : K)
              = ((err - dy + dx : ℤ) : K) from by push_cast; ring]
          exact ih _ _ _ _
        · have h2' : ¬(2 * ((err : ℤ) : K) < ((dx : ℤ) : K)) := fun hc => h2 (by exact_mod_cast hc)
          rw [if_neg h2', if_neg h2,
            show ((err : ℤ) : K) - ((dy : ℤ) : K) = ((err - dy : ℤ) : K) from by push_cast; ring]
          exact ih _ _ _ _
      · have h1' : ¬(2 * ((err : ℤ) : K) > -((dy : ℤ) : K)) := fun hc => h1 (by exact_mod_cast hc)
        rw [if_neg h1', if_neg h1]
        by_cases h2 : 2 * err < dx
        · have h2' : 2 * ((err : ℤ) : K) < ((dx : ℤ) : K) := by exact_mod_cast h2
          rw [if_pos h2', if_pos h2,
            show ((err : ℤ) : K) + ((dx : ℤ) : K) = ((err + dx : ℤ) : K) from by push_cast; ring]
          exact ih _ _ _ _
        · have h2' : ¬(2 * ((err : ℤ) : K) < ((dx : ℤ) : K)) := fun hc => h2 (by exact_mod_cast hc)
          rw [if_neg h2', if_neg h2]
          exact ih _ _ _ _

/-- C2 (amended): when the start point and the projected end point of a
segment are already integral (so rounding them is the identity), the cells
`drawLine` marks are exactly those of the standard integer Bresenham
rasterization between them.  (For fractional end points the two can differ —
see the counterexample theorem.) -/
theorem C2_drawLine_eq_integer_bresenham_on_integer_endpoints
    (fuel : ℕ) (buf : ℕ → ℕ) (width height : ℕ) (x0 y0 x1 y1 : ℤ) :
    ShadowProjector.drawLine fuel buf width height ((x0 : ℤ) : K) ((y0 : ℤ) : K)
        ((x1 : ℤ) : K) ((y1 : ℤ) : K)
      = SpecBresenham.run fuel buf width height x0 y0 x1 y1 := by
  unfold ShadowProjector.drawLine SpecBresenham.run
  rw [jsRound_intCast, jsRound_intCast, jsRound_intCast, jsRound_intCast]
  rw [show |((x1 : ℤ) : K) - ((x0 : ℤ) : K)| = ((|x1 - x0| : ℤ) : K) from by push_cast; ring_nf,
    show |((y1 : ℤ) : K) - ((y0 : ℤ) : K)| = ((|y1 - y0| : ℤ) : K) from by push_cast; ring_nf,
    show (if ((x0 : ℤ) : K) < ((x1 : ℤ) : K) then (1 : ℤ) else -1)
      = (if x0 < x1 then (1 : ℤ) else -1) from by simp [Int.cast_lt],
    show (if ((y0 : ℤ) : K) < ((y1 : ℤ) : K) then (1 : ℤ) else -1)
      = (if y0 < y1 then (1 : ℤ) else -1) from by simp [Int.cast_lt],
    show ((|x1 - x0| : ℤ) : K) - ((|y1 - y0| : ℤ) : K)
      = ((|x1 - x0| - |y1 - y0| : ℤ) : K) from by push_cast; ring]
  exact drawLineGo_intCast_eq width height _ _ _ _ _ _ fuel x0 y0 _ buf

/-- C2 (counterexample): a single opaque pixel at `(0, 0)` on a 5×2 canvas
with light vector `(-0.36, -0.12, 0)` and `maxDistance = 10` projects to the
end point `(3.6, 1.2)`, which rounds to `(4, 1)`.  The cells the code marks
(it traverses `(2, 1)`) differ from the cells of the standard integer
Bresenham rasterization from `(0, 0)` to `(4, 1)` (which traverses `(2, 0)`),
refuting the claimed equality of the two cell sets. -/
theorem C2_code_marks_differ_from_integer_bresenham :
    (ShadowProjector.project 16 (fun i => if i = 0 then 1 else 0) 5 2
        (⟨-(9/25), -(3/25), 0⟩ : LightVector ℚ) 10 none).map (fun f => (List.range 10).map f)
      = some [1, 1, 0, 0, 0, 0, 0, 1, 1, 1]
    ∧ (SpecBresenham.run 16 (fun _ => 0) 5 2 0 0 4 1).map (fun f => (List.range 10).map f)
      = some [1, 1, 1, 0, 0, 0, 0, 0, 1, 1]
    ∧ jsRound ((0 : ℚ) - -(9/25) * 10 * 1) = 4
    ∧ jsRound ((0 : ℚ) - -(3/25) * 10 * 1) = 1
    ∧ ([1, 1, 0, 0, 0, 0, 0, 1, 1, 1] : List ℕ) ≠ [1, 1, 1, 0, 0, 0, 0, 0, 1, 1] := by
  exact ⟨by decide, by decide, by decide, by decide, by decide⟩

/-- A 200×200 mask whose single opaque pixel is `(50, 50)`
(index `50·200 + 50 = 10050`). -/
def centerPixelMask : ℕ → ℕ := fun i => if i = 10050 then 1 else 0

/-- The `drawLine` loop state reached for the claim-C7 input: on a 200×200
canvas, tracing from `(x, 50)` toward the end point `(-100, 50)` with
`dx = 150`, `dy = 0`, `sx = sy = -1` and error term `150`. -/
def goC7 (fuel : ℕ) (x : ℤ) (buf : ℕ → ℕ) : Option (ℕ → ℕ) :=
  ShadowProjector.drawLineGo 200 200 (150 : ℚ) 0 (-1) (-1) (-100) 50 fuel x 50 150 buf

theorem goC7_step (fuel : ℕ) (x : ℤ) (buf : ℕ → ℕ) (hne : x ≠ -100) :
    goC7 (fuel + 1) x buf
      = goC7 fuel (x - 1) (if 0 ≤ x ∧ x < 200 then markCell buf (10000 + x.toNat) else buf) := by
  simp only [goC7, ShadowProjector.drawLineGo]
  rw [if_neg (by simp [hne] : ¬(x = -100 ∧ True))]
  rw [if_pos (by norm_num : (2 : ℚ) * 150 > -0)]
  rw [if_neg (by norm_num : ¬((2 : ℚ) * 150 < 150))]
  norm_num
  rw [show x + -1 = x - 1 from by ring, show Int.toNat 50 * 200 = 10000 from rfl]

theorem goC7_break (fuel : ℕ) (buf : ℕ → ℕ) : goC7 (fuel + 1) (-100) buf = some buf := by
  simp only [goC7, ShadowProjector.drawLineGo]
  norm_num

theorem goC7_isSome : ∀ (k fuel : ℕ) (x : ℤ) (buf : ℕ → ℕ), x = -100 + k → k < fuel →
    (goC7 fuel x buf).isSome = true := by
  intro k
  induction k with
  | zero =>
    intro fuel x buf hx hk
    rcases fuel with _ | m
    · omega
    · subst hx
      norm_num [goC7_break]
  | succ n ih =>
    intro fuel x buf hx hk
    rcases fuel with _ | m
    · omega
    · rw [goC7_step m x buf (by omega)]
      exact ih m (x - 1) _ (by omega) (by omega)

theorem goC7_marks_subset : ∀ (fuel : ℕ) (x : ℤ) (buf out : ℕ → ℕ),
    goC7 fuel x buf = some out → ∀ j, out j = 1 →
      buf j = 1 ∨ ∃ t : ℤ, 0 ≤ t ∧ t < 200 ∧ t ≤ x ∧ (j : ℤ) = 10000 + t := by
  intro fuel
  induction fuel with
  | zero => intro x buf out h; cases h
  | succ n ih =>
    intro x buf out h j hj
    by_cases hx : x = -100
    · subst hx
      rw [goC7_break] at h
      exact Or.inl ((Option.some_injective _ h) ▸ hj)
    · rw [goC7_step n x buf hx] at h
      rcases ih (x - 1) _ out h j hj with hbuf' | ⟨t, ht0, ht200, htx, hjt⟩
      · by_cases hb : 0 ≤ x ∧ x < 200
        · rw [if_pos hb] at hbuf'
          unfold markCell at hbuf'
          by_cases hj' : j = 10000 + x.toNat
          · exact Or.inr ⟨x, hb.1, hb.2, le_refl x, by omega⟩
          · rw [if_neg hj'] at hbuf'
            exact Or.inl hbuf'
        · rw [if_neg hb] at hbuf'
          exact Or.inl hbuf'
      · exact Or.inr ⟨t, ht0, ht200, by omega, hjt⟩

theorem goC7_covers : ∀ (fuel : ℕ) (x : ℤ) (buf out : ℕ → ℕ),
    goC7 fuel x buf = some out → ∀ c : ℤ, 0 ≤ c → c < 200 → c ≤ x →
      out (10000 + c.toNat) = 1 := by
  intro fuel
  induction fuel with
  | zero => intro x buf out h; cases h
  | succ n ih =>
    intro x buf out h c hc0 hc200 hcx
    by_cases hx : x = -100
    · exact absurd (le_trans hc0 (hx ▸ hcx)) (by norm_num)
    · rw [goC7_step n x buf hx] at h
      by_cases hc : c = x
      · subst hc
        refine ShadowProjector.drawLineGo_marks_mono h _ ?_
        rw [if_pos ⟨hc0, hc200⟩]
        unfold markCell
        rw [if_pos rfl]
      · exact ih (x - 1) _ out h c hc0 hc200 (by omega)

/-- For any rational light vector and distance whose products are exactly
`(150, 0)` (as the real light-vector computation yields for angle 0°,
elevation 45° and shadow length `√2·150`), `project` on the center-pixel
mask reduces to the single horizontal trace from `(50, 50)` to
`(-100, 50)`. -/
theorem projectC7_eq (lv : LightVector ℚ) (maxD : ℚ) (h1 : lv.dx * maxD = 150)
    (h2 : lv.dy * maxD = 0) (fuel : ℕ) :
    ShadowProjector.project fuel centerPixelMask 200 200 lv maxD none
      = goC7 fuel 50 (fun _ => 0) := by
  rw [ShadowProjector.project_eq_single_step fuel _ 200 200 _ _ none 10050 (by norm_num)
    (fun i hi => by simp [centerPixelMask, hi])]
  simp only [ShadowProjector.projectStep, Option.some_bind]
  rw [if_neg (by simp [centerPixelMask])]
  simp only [mul_one]
  rw [h1, h2]
  norm_num
  rw [show ShadowProjector.drawLine fuel (fun _ => 0) 200 200 ((50 : ℚ)) 50 (-100) 50
      = goC7 fuel 50 (fun _ => 0) from by
    simp only [ShadowProjector.drawLine, goC7]
    rw [show jsRound ((50 : ℚ)) = 50 from by decide,
      show jsRound ((-100 : ℚ)) = -100 from by decide]
    norm_num]

theorem calculate_0_45_dx_product :
    (LightVectorCalculator.calculate 0 45).dx
      * (LightVectorCalculator.getShadowLengthMultiplier 45 * 150) = 150 := by
  have h45 : degreesToRadians 45 = Real.pi / 4 := by unfold degreesToRadians; ring
  have h0 : degreesToRadians 0 = 0 := by unfold degreesToRadians; ring
  simp only [LightVectorCalculator.calculate, LightVectorCalculator.getShadowLengthMultiplier,
    h45, h0]
  rw [Real.cos_zero, Real.cos_pi_div_four, Real.sin_pi_div_four]
  have h1le : (1 : ℝ) ≤ Real.sqrt 2 := by
    calc (1 : ℝ) = Real.sqrt 1 := Real.sqrt_one.symm
      _ ≤ Real.sqrt 2 := Real.sqrt_le_sqrt (by norm_num)
  rw [max_eq_right (by linarith : (1 : ℝ)/10 ≤ Real.sqrt 2 / 2)]
  have hmul : Real.sqrt 2 * Real.sqrt 2 = 2 := Real.mul_self_sqrt (by norm_num)
  have ha : Real.sqrt 2 ≠ 0 := by linarith
  field_simp
  nlinarith [hmul]

theorem calculate_0_45_dy_product :
    (LightVectorCalculator.calculate 0 45).dy
      * (LightVectorCalculator.getShadowLengthMultiplier 45 * 150) = 0 := by
  have h0 : degreesToRadians 0 = 0 := by unfold degreesToRadians; ring
  simp [LightVectorCalculator.calculate, h0]

/-- C7: with light angle 0° and elevation 45°, the real light-vector and
shadow-length computation projects each pixel exactly 150 pixels toward
`-x` (the products `dx·(multiplier·150)` and `dy·(multiplier·150)` are
exactly `150` and `0`).  For every rational light vector and distance
realizing those products, projecting the single opaque pixel `(50, 50)` of a
200×200 canvas and removing occlusions leaves shadow pixels only at
x-coordinates strictly below 50, and does leave one (at `(49, 50)`); the
trace also terminates, witnessed by fuel 200 for the vector `(1, 0, 1)`
with distance 150. -/
theorem C7_shadow_direction :
    ((LightVectorCalculator.calculate 0 45).dx
        * (LightVectorCalculator.getShadowLengthMultiplier 45 * 150) = 150
      ∧ (LightVectorCalculator.calculate 0 45).dy
        * (LightVectorCalculator.getShadowLengthMultiplier 45 * 150) = 0)
    ∧ (∀ (lv : LightVector ℚ) (maxD : ℚ), lv.dx * maxD = 150 → lv.dy * maxD = 0 →
        ∀ fuel : ℕ,
          (ShadowProjector.project fuel centerPixelMask 200 200 lv maxD none).elim True
            (fun buf =>
              (∀ i, i < 200 * 200 →
                ShadowProjector.removeOcclusions buf centerPixelMask 200 200 i = 1 →
                  i % 200 < 50)
              ∧ ShadowProjector.removeOcclusions buf centerPixelMask 200 200 10049 = 1))
    ∧ (ShadowProjector.project 200 centerPixelMask 200 200
        (⟨1, 0, 1⟩ : LightVector ℚ) 150 none).isSome = true := by
  refine ⟨⟨calculate_0_45_dx_product, calculate_0_45_dy_product⟩, ?_, ?_⟩
  · intro lv maxD h1 h2 fuel
    rw [projectC7_eq lv maxD h1 h2 fuel]
    cases hgo : goC7 fuel 50 (fun _ => 0) with
    | none => exact trivial
    | some out =>
      simp only [Option.elim_some]
      constructor
      · intro i hi hrem
        have hrem' : out i = 1 ∧ centerPixelMask i = 0 := by
          by_cases hc : i < 200 * 200 ∧ out i = 1 ∧ centerPixelMask i = 0
          · exact ⟨hc.2.1, hc.2.2⟩
          · simp only [ShadowProjector.removeOcclusions, if_neg hc] at hrem
            exact absurd hrem (by decide)
        have hne : i ≠ 10050 := by
          intro he
          rw [he] at hrem'
          simp [centerPixelMask] at hrem'
        rcases goC7_marks_subset fuel 50 _ out hgo i hrem'.1 with hzero | ⟨t, ht0, ht200, htx, hjt⟩
        · exact absurd hzero (by simp)
        · omega
      · have hout := goC7_covers fuel 50 _ out hgo 49 (by norm_num) (by norm_num) (by norm_num)
        rw [show (10000 + (49 : ℤ).toNat) = 10049 from rfl] at hout
        simp [ShadowProjector.removeOcclusions, centerPixelMask, hout]
  · rw [projectC7_eq ⟨1, 0, 1⟩ 150 (by norm_num) (by norm_num) 200]
    exact goC7_isSome 150 200 50 (fun _ => 0) (by norm_num) (by norm_num)

/-- Witness for C7's universally quantified part, at the rational light
vector `(1, 0, 1)` with distance 150 (whose products are `150` and `0`) and
fuel 200. -/
theorem C7_shadow_direction_witness :
    (ShadowProjector.project 200 centerPixelMask 200 200
        (⟨1, 0, 1⟩ : LightVector ℚ) 150 none).elim True
      (fun buf =>
        (∀ i, i < 200 * 200 →
          ShadowProjector.removeOcclusions buf centerPixelMask 200 200 i = 1 →
            i % 200 < 50)
        ∧ ShadowProjector.removeOcclusions buf centerPixelMask 200 200 10049 = 1) := by
  have h1 : (⟨1, 0, 1⟩ : LightVector ℚ).dx * 150 = 150 := by norm_num
  have h2 : (⟨1, 0, 1⟩ : LightVector ℚ).dy * 150 = 0 := by norm_num
  with_reducible exact C7_shadow_direction.2.1 ⟨1, 0, 1⟩ 150 h1 h2 200

namespace ShadowGenerator

theorem allocSet_mem_preserved (s : Store) (v : Buf) (b : ℕ) (hb : b < s.next) :
    (allocSet s v).2.mem b = s.mem b := by
  simp only [allocSet]
  rw [if_neg (by omega)]

end ShadowGenerator

/-- C8: `generate` never writes to its input buffers: whenever it returns,
the contents of the foreground, background and (when given) depth-map
buffers in the resulting heap are exactly their contents in the initial
heap — every stage only fills the buffer it freshly allocates. -/
theorem C8_generate_preserves_inputs (fuel : ℕ) (s : ShadowGenerator.Store)
    (fgId bgId : ℕ) (depthId : Option ℕ) (config : ShadowConfig ℝ) (width height : ℕ)
    (hfg : fgId < s.next) (hbg : bgId < s.next)
    (hdm : ∀ d, depthId = some d → d < s.next) :
    (ShadowGenerator.generate fuel s fgId bgId depthId config width height).elim True
      (fun r => r.1.mem fgId = s.mem fgId ∧ r.1.mem bgId = s.mem bgId ∧
        ∀ d, depthId = some d → r.1.mem d = s.mem d) := by
  simp only [ShadowGenerator.generate]
  split
  · exact trivial
  · simp only [Option.elim]
    refine ⟨?_, ?_, ?_⟩
    · iterate 8 rw [ShadowGenerator.allocSet_mem_preserved _ _ _
        (by first | (simp only [ShadowGenerator.allocSet]; omega) | omega)]
    · iterate 8 rw [ShadowGenerator.allocSet_mem_preserved _ _ _
        (by first | (simp only [ShadowGenerator.allocSet]; omega) | omega)]
    · intro d hd
      have hd' := hdm d hd
      iterate 8 rw [ShadowGenerator.allocSet_mem_preserved _ _ _
        (by first | (simp only [ShadowGenerator.allocSet]; omega) | omega)]

/-- Witness for C8 at a concrete heap: two allocated 1×1 buffers (ids 0 and
1) as foreground and background, no depth map. -/
theorem C8_generate_preserves_inputs_witness :
    (ShadowGenerator.generate 1 ⟨2, fun _ => ShadowGenerator.Buf.bytes (fun _ => 0)⟩ 0 1 none
        ⟨135, 45, 150, 9/10, 3, 1, 10⟩ 1 1).elim True
      (fun r => r.1.mem 0 = (⟨2, fun _ => ShadowGenerator.Buf.bytes (fun _ => 0)⟩ :
            ShadowGenerator.Store).mem 0
        ∧ r.1.mem 1 = (⟨2, fun _ => ShadowGenerator.Buf.bytes (fun _ => 0)⟩ :
            ShadowGenerator.Store).mem 1
        ∧ ∀ d, (none : Option ℕ) = some d →
            r.1.mem d = (⟨2, fun _ => ShadowGenerator.Buf.bytes (fun _ => 0)⟩ :
              ShadowGenerator.Store).mem d) := by
  have hdm : ∀ d : ℕ, (none : Option ℕ) = some d →
      d < (⟨2, fun _ => ShadowGenerator.Buf.bytes (fun _ => 0)⟩ : ShadowGenerator.Store).next :=
    fun d h => by cases h
  with_reducible exact C8_generate_preserves_inputs 1 _ 0 1 none ⟨135, 45, 150, 9/10, 3, 1, 10⟩ 1 1 (by decide) (by decide) hdm
